import Mathlib

/-!
Verification of the document-fetching cache implemented in
src/projects/docs-app/src/app/documents/document.service.ts.

The service is embedded as an explicit event-driven state machine:

* external collaborators (the HTTP transport, the markdown renderer, the
  location source) are parameters — the renderer lives in `Config`, a
  transport response is an `Event.response` carrying a `TransportResult`;
* an rxjs `AsyncSubject` is a single-assignment shared future, modelled by
  `FutureState` (`pending` while its fetch is in flight, `done` once the
  latched value is known, `linked` when `catchError` substituted another
  `getDocument` observable for the result);
* the service fields (`cache`, the set of live subjects, the in-flight
  requests) form `ServiceState`; `getDocument` / `fetchDocument` /
  `getFileNotFoundDoc` / `getErrorDoc` mirror the methods of the source
  one by one, and `completeFetch` performs the pipe
  (`map` / `tap` / `catchError`) that runs when a transport response for an
  in-flight request arrives;
* logging is observational only in the source and is not modelled, except
  that `transportLog` records every request handed to `http.get` (used to
  count transport invocations).

All work between suspension points is synchronous in the source
(single-threaded event turns), so one `Event` = one event turn.
-/

namespace DocService

/-- Values the external markdown renderer (`markdownService.compile`) may
return: normally a markup string, but a misbehaving collaborator may return
`null` or `undefined`. -/
inductive Jsv where
  | jnull
  | jundefined
  | jstr (s : String)
  deriving DecidableEq, Repr

/-- The document shape produced by the service: `{ id, contents }`, where
`contents` is whatever the renderer returned (a string in the normal case). -/
structure DocumentContents where
  id : String
  contents : Jsv
  deriving DecidableEq, Repr

/-- A JS value as seen by the `tap` validation step of the pipe.  The `map`
step wraps the rendered contents in an object literal, so the value the
`tap` inspects is `vobj`; the other constructors exist so that the
truthiness/typeof test below is the real JS test and not a constant. -/
inductive JsValue where
  | vnull
  | vundefined
  | vstr (s : String)
  | vnum (n : Int)
  | vbool (b : Bool)
  | vobj (d : DocumentContents)
  deriving DecidableEq, Repr

/-- JS falsiness (`!data`): `null`, `undefined`, the empty string, `0` and
`false` are falsy; every object is truthy. -/
def jsFalsy : JsValue → Bool
  | .vnull => true
  | .vundefined => true
  | .vstr s => s = ""
  | .vnum n => n = 0
  | .vbool b => !b
  | .vobj _ => false

/-- JS `typeof` (note `typeof null = "object"`). -/
def jsTypeof : JsValue → String
  | .vnull => "object"
  | .vundefined => "undefined"
  | .vstr _ => "string"
  | .vnum _ => "number"
  | .vbool _ => "boolean"
  | .vobj _ => "object"

/-- The condition of the `tap` step:
`!data || typeof data !== 'object'`. -/
def invalidData (v : JsValue) : Bool :=
  jsFalsy v || (jsTypeof v != "object")

/-- Reserved identifier for the not-found fallback document. -/
def FILE_NOT_FOUND_ID : String := "file-not-found"

/-- Reserved identifier for the generic fetching-error document. -/
def FETCHING_ERROR_ID : String := "fetching-error"

def CONTENT_URL_PREFIX : String := "content/"

def DOC_CONTENT_URL_PREFIX : String := CONTENT_URL_PREFIX ++ "docs/"

/-- The fixed markup of the generic fetching-error document (the template
literal `FETCHING_ERROR_CONTENTS` of the source, newlines included). -/
def FETCHING_ERROR_CONTENTS : String :=
  "\n  <div class=\"nf-container l-flex-wrap flex-center\">\n    <div class=\"nf-icon material-icons\">error_outline</div>\n    <div class=\"nf-response l-flex-wrap\">\n      <h1 class=\"no-toc\">Request for document failed.</h1>\n      <p>\n        We are unable to retrieve the \"<current-location></current-location>\" page at this time.\n        Please check your connection and try again later.\n      </p>\n    </div>\n  </div>\n"

/-- The `indexMap` object literal of `fetchDocument`: alias table from a
section id to that section's index document. -/
def indexMap : List (String × String) :=
  [("guide/store", "guide/store/index"),
   ("guide/effects", "guide/effects/index"),
   ("guide/entity", "guide/entity/index"),
   ("guide/router-store", "guide/router-store/index"),
   ("guide/store-devtools", "guide/store-devtools/index"),
   ("guide/data", "guide/data/index"),
   ("guide/schematics", "guide/schematics/index")]

/-- The `placeholders` array of `fetchDocument`. -/
def placeholders : List String := ["resources", "events"]

/-- Construction-time parameters: the base href obtained from the location
collaborator and the external markdown renderer. -/
structure Config where
  baseHref : String
  render : String → Jsv

/-- Outcome of one transport request (`http.get` with `responseType: 'text'`):
either the body text, or an `HttpErrorResponse` with a status code and a
human-readable message. -/
inductive TransportResult where
  | ok (body : String)
  | err (status : Nat) (message : String)
  deriving DecidableEq, Repr

/-- An error travelling down the rxjs pipe: either the transport's
`HttpErrorResponse` (which has a `status`) or an `Error` thrown inside the
pipe (which has no `status` field). -/
inductive PipeError where
  | httpErr (status : Nat) (message : String)
  | jsError (message : String)
  deriving DecidableEq, Repr

/-- The `error.status === 404` test of `catchError`.  A thrown `Error` has
no `status` property, so the comparison is false for it. -/
def errStatus404 : PipeError → Bool
  | .httpErr st _ => st == 404
  | .jsError _ => false

/-- State of one `AsyncSubject<DocumentContents>`: still awaiting its pipe
result, latched with a final document, or subscribed (by `catchError`'s
replacement observable) to the future of another id — it then completes
exactly when that target completes. -/
inductive FutureState where
  | pending
  | linked (target : Nat)
  | done (doc : DocumentContents)
  deriving DecidableEq, Repr

/-- One in-flight `http.get`: the future it feeds, the originally requested
document id, and the request path handed to the transport. -/
structure Fetch where
  fid : Nat
  id : String
  path : String
  deriving DecidableEq, Repr

/-- The mutable state of the service.  `cache` is the `Map` field (document
id to future), `futures` assigns each allocated future id its state,
`fetches` is the set of requests currently in flight, `transportLog` records
every request ever handed to the transport (most recent first), and
`nextFid` is the allocator for future ids. -/
structure ServiceState where
  cache : String → Option Nat
  futures : Nat → Option FutureState
  fetches : List Fetch
  transportLog : List Fetch
  nextFid : Nat

/-- `const id = url || 'index'` — the empty string is the only falsy string,
so an empty path resolves to the reserved default id. -/
def resolveId (url : String) : String :=
  if url = "" then "index" else url

/-- The alias/placeholder substitution of `fetchDocument`:
`if (indexMap[id]) doc = indexMap[id]; else if (placeholder) doc = 'placeholder'`.
Every value of `indexMap` is a nonempty string, hence truthy, so the JS
truthiness test coincides with lookup success. -/
def sourceDoc (id : String) : String :=
  match indexMap.lookup id with
  | some d => d
  | none =>
      if (placeholders.find? (fun ph => ph = id)).isSome then "placeholder"
      else id

/-- The request path of `fetchDocument`:
`baseHref + DOC_CONTENT_URL_PREFIX + doc + '.md'`. -/
def requestPathOf (cfg : Config) (id : String) : String :=
  cfg.baseHref ++ DOC_CONTENT_URL_PREFIX ++ sourceDoc id ++ ".md"

/-- `fetchDocument`: allocate a fresh `AsyncSubject`, issue the transport
request for the resolved source path, and return the subject's future id.
The pipe that will process the response is `completeFetch` below. -/
def fetchDocument (cfg : Config) (s : ServiceState) (id : String) :
    ServiceState × Nat :=
  let f : Fetch := ⟨s.nextFid, id, requestPathOf cfg id⟩
  ({ s with
      futures := fun n => if n = s.nextFid then some .pending else s.futures n,
      fetches := f :: s.fetches,
      transportLog := f :: s.transportLog,
      nextFid := s.nextFid + 1 },
   s.nextFid)

/-- `getDocument`: resolve the id, return the cached future if present,
otherwise create one via `fetchDocument` and cache it. -/
def getDocument (cfg : Config) (s : ServiceState) (url : String) :
    ServiceState × Nat :=
  match s.cache (resolveId url) with
  | some fid => (s, fid)
  | none =>
      let p := fetchDocument cfg s (resolveId url)
      ({ p.1 with
          cache := fun i => if i = resolveId url then some p.2
                            else p.1.cache i },
       p.2)

/-- The `map` and `tap` steps of the pipe, run on a transport outcome.  On a
successful response the `map` step builds the object literal
`{ id, contents: compile(data) }`; the `tap` step then throws
`Error('Invalid data')` if that value is falsy or not an object.  A
transport failure skips both and travels down as the `HttpErrorResponse`. -/
def prePipeline (cfg : Config) (id : String) (tr : TransportResult) :
    Except PipeError DocumentContents :=
  match tr with
  | .err status msg => .error (.httpErr status msg)
  | .ok body =>
      let data : DocumentContents := ⟨id, cfg.render body⟩
      if invalidData (.vobj data) then .error (.jsError "Invalid data")
      else .ok data

/-- `getFileNotFoundDoc`: for any other id, re-enter `getDocument` for the
reserved not-found id (the caller's subject is then subscribed to that
future — `linked`); for the reserved id itself, short-circuit with an
immediately-completed document and touch nothing. -/
def getFileNotFoundDoc (cfg : Config) (s : ServiceState) (id : String) :
    ServiceState × FutureState :=
  if id ≠ FILE_NOT_FOUND_ID then
    let p := getDocument cfg s FILE_NOT_FOUND_ID
    (p.1, .linked p.2)
  else
    (s, .done ⟨ FILE_NOT_FOUND_ID, .jstr "Document not found"⟩)

/-- `getErrorDoc`: evict the id from the cache and complete with the fixed
fetching-error document. -/
def getErrorDoc (s : ServiceState) (id : String) :
    ServiceState × FutureState :=
  ({ s with cache := fun i => if i = id then none else s.cache i },
   .done ⟨ FETCHING_ERROR_ID, .jstr FETCHING_ERROR_CONTENTS⟩)

/-- The whole pipe for one response: `map`/`tap`, then `catchError`
dispatching on `error.status === 404`. -/
def handleOutcome (cfg : Config) (s : ServiceState) (id : String)
    (tr : TransportResult) : ServiceState × FutureState :=
  match prePipeline cfg id tr with
  | .ok d => (s, .done d)
  | .error e =>
      if errStatus404 e then getFileNotFoundDoc cfg s id
      else getErrorDoc s id

/-- The in-flight request feeding future `fid`, if any. -/
def findFetch (s : ServiceState) (fid : Nat) : Option Fetch :=
  s.fetches.find? (fun f => f.fid == fid)

/-- Arrival of the transport response for future `fid`: the request leaves
the in-flight set and the pipe result is latched into the subject.  A
response for a fetch that is not in flight is a no-op. -/
def completeFetch (cfg : Config) (s : ServiceState) (fid : Nat)
    (tr : TransportResult) : ServiceState :=
  match findFetch s fid with
  | none => s
  | some f =>
      let s1 : ServiceState :=
        { s with fetches := s.fetches.filter (fun g => g.fid != fid) }
      let p := handleOutcome cfg s1 f.id tr
      { p.1 with
          futures := fun n => if n = fid then some p.2 else p.1.futures n }

/-- An event turn: either some caller invokes `getDocument`, or the
transport delivers the response for an in-flight request. -/
inductive Event where
  | request (url : String)
  | response (fid : Nat) (tr : TransportResult)
  deriving DecidableEq, Repr

def step (cfg : Config) (s : ServiceState) : Event → ServiceState
  | .request url => (getDocument cfg s url).1
  | .response fid tr => completeFetch cfg s fid tr

def run (cfg : Config) (s : ServiceState) (es : List Event) : ServiceState :=
  es.foldl (step cfg) s

/-- The freshly constructed service: empty cache, no futures, nothing in
flight. -/
def init : ServiceState :=
  { cache := fun _ => none, futures := fun _ => none,
    fetches := [], transportLog := [], nextFid := 0 }

/-- The value a subscriber of future `fid` receives, if the future has
completed — following the `linked` indirection.  Link chains in reachable
states have length at most one, so fuel 3 is never the limiting factor. -/
def resolveFuture (s : ServiceState) : Nat → Nat → Option DocumentContents
  | 0, _ => none
  | fuel + 1, fid =>
      match s.futures fid with
      | some (.done d) => some d
      | some (.linked t) => resolveFuture s fuel t
      | _ => none

/-- Number of in-flight transport requests for a given document id. -/
def countFetches (s : ServiceState) (id : String) : Nat :=
  (s.fetches.filter (fun f => f.id == id)).length

/-- Number of transport requests ever issued for the reserved not-found
id. -/
def countFnf (s : ServiceState) : Nat :=
  (s.transportLog.filter (fun f => f.id == FILE_NOT_FOUND_ID)).length

/-- Events whose transport outcome is a success or a 404 — i.e. traces with
no generic transport failure. -/
def benign : Event → Bool
  | .request _ => true
  | .response _ (.ok _) => true
  | .response _ (.err st _) => st == 404

/-! ### The Document Stream (`currentDocument` with `switchMap`)

`location.currentPath.pipe(switchMap(path => this.getDocument(path)))`:
each emitted path replaces the inner subscription with a subscription to
`getDocument(path)`; an `AsyncSubject` delivers its latched value to a
subscriber as soon as it is available (immediately, if already complete),
and a stale inner subscription is dropped before it can emit. -/

structure AppState where
  svc : ServiceState
  currentSub : Option Nat
  subEmitted : Bool
  emissions : List DocumentContents

inductive AppEvent where
  | navigate (path : String)
  | response (fid : Nat) (tr : TransportResult)
  deriving DecidableEq, Repr

/-- Deliver the current inner subscription's value to the stream if that
future has completed and the subscription has not emitted yet. -/
def emitIfReady (a : AppState) : AppState :=
  match a.currentSub with
  | none => a
  | some c =>
      if a.subEmitted then a
      else
        match resolveFuture a.svc 3 c with
        | some d => { a with subEmitted := true, emissions := d :: a.emissions }
        | none => a

def appStep (cfg : Config) (a : AppState) : AppEvent → AppState
  | .navigate path =>
      let p := getDocument cfg a.svc path
      emitIfReady
        { svc := p.1, currentSub := some p.2, subEmitted := false,
          emissions := a.emissions }
  | .response fid tr =>
      emitIfReady { a with svc := completeFetch cfg a.svc fid tr }

def appRun (cfg : Config) (a : AppState) (es : List AppEvent) : AppState :=
  es.foldl (appStep cfg) a

def appInit : AppState := ⟨init, none, false, []⟩

/-! ### Invariants and proof-layer notions -/

/-- A valid target for a `linked` future: the future of the reserved
not-found id, either already latched or still awaiting its own fetch. -/
def fnfTargetOk (s : ServiceState) (t : Nat) : Prop :=
  (∃ d, s.futures t = some (.done d)) ∨
  (s.futures t = some .pending ∧
   ∃ f ∈ s.fetches, f.fid = t ∧ f.id = FILE_NOT_FOUND_ID)

/-- Well-formedness of a service state, preserved by every event turn:
each in-flight request is owned by the cache entry of its id and feeds a
pending future; future ids of in-flight requests are distinct (at most one
fetch per id); every cached future exists, a cached pending future has its
fetch in flight, and distinct ids never share a future; the future cached
for the not-found id is never a link, and every link targets a valid
not-found future. -/
structure WF (s : ServiceState) : Prop where
  fetchCache : ∀ f ∈ s.fetches, s.cache f.id = some f.fid
  fetchFresh : ∀ f ∈ s.fetches, f.fid < s.nextFid
  fetchPending : ∀ f ∈ s.fetches, s.futures f.fid = some .pending
  fidNodup : (s.fetches.map Fetch.fid).Nodup
  cacheFresh : ∀ i v, s.cache i = some v → v < s.nextFid
  cacheFut : ∀ i v, s.cache i = some v → s.futures v ≠ none
  cachePF : ∀ i v, s.cache i = some v → s.futures v = some .pending →
      ∃ f ∈ s.fetches, f.fid = v ∧ f.id = i
  cacheInj : ∀ i j v, s.cache i = some v → s.cache j = some v → i = j
  fnfNL : ∀ v u, s.cache FILE_NOT_FOUND_ID = some v →
      s.futures v ≠ some (.linked u)
  linkOk : ∀ x t, s.futures x = some (.linked t) → fnfTargetOk s t
  futFresh : ∀ x st, s.futures x = some st → x < s.nextFid

/-- The future the not-found branch links a 404-stricken request to: the
cached not-found future if there is one, else the future allocated for the
fresh not-found fetch. -/
def fnfTarget (s : ServiceState) : Nat :=
  match s.cache FILE_NOT_FOUND_ID with
  | some v => v
  | none => s.nextFid

/-- Counting invariant for the not-found content: at most one transport
request for it was ever issued, and none while it is not cached. -/
def QInv (s : ServiceState) : Prop :=
  countFnf s ≤ 1 ∧ (s.cache FILE_NOT_FOUND_ID = none → countFnf s = 0)

/-- Whether a stream event is a navigation. -/
def isNav : AppEvent → Bool
  | .navigate _ => true
  | .response _ _ => false

/-- The most recently emitted navigation path of a stream trace, if any. -/
def lastNav (es : List AppEvent) : Option String :=
  es.foldl
    (fun acc e =>
      match e with
      | .navigate p => some p
      | .response _ _ => acc)
    none

/-- A concrete configuration used by the witnesses. -/
def cfgW : Config := ⟨"/", fun b => .jstr b⟩

/-- A concrete state used by the witnesses: the id "a" was resolved and its
document is latched. -/
def sW : ServiceState :=
  { cache := fun i => if i = "a" then some 0 else none,
    futures := fun n => if n = 0 then some (.done ⟨"a", Jsv.jstr "X"⟩)
               else none,
    fetches := [], transportLog := [], nextFid := 1 }

/-! ### Basic unfolding lemmas -/

theorem getDocument_hit {cfg : Config} {s : ServiceState} {url : String}
    {v : Nat} (h : s.cache (resolveId url) = some v) :
    getDocument cfg s url = (s, v) := by
  unfold getDocument
  rw [h]

theorem getDocument_miss {cfg : Config} {s : ServiceState} {url : String}
    (h : s.cache (resolveId url) = none) :
    getDocument cfg s url =
      ({ cache := fun i => if i = resolveId url then some s.nextFid
                           else s.cache i,
         futures := fun n => if n = s.nextFid then some .pending
                             else s.futures n,
         fetches := ⟨s.nextFid, resolveId url, requestPathOf cfg (resolveId url)⟩
                      :: s.fetches,
         transportLog :=
           ⟨s.nextFid, resolveId url, requestPathOf cfg (resolveId url)⟩
             :: s.transportLog,
         nextFid := s.nextFid + 1 }, s.nextFid) := by
  unfold getDocument fetchDocument
  rw [h]

theorem prePipeline_ok (cfg : Config) (id : String) (body : String) :
    prePipeline cfg id (.ok body) = .ok ⟨id, cfg.render body⟩ := rfl

theorem completeFetch_noFetch {cfg : Config} {s : ServiceState} {fid : Nat}
    {tr : TransportResult} (h : findFetch s fid = none) :
    completeFetch cfg s fid tr = s := by
  unfold completeFetch
  rw [h]

theorem completeFetch_eq {cfg : Config} {s : ServiceState} {fid : Nat}
    {tr : TransportResult} {f : Fetch} (h : findFetch s fid = some f) :
    completeFetch cfg s fid tr =
      (let s1 : ServiceState :=
        { s with fetches := s.fetches.filter (fun g => g.fid != fid) }
       let p := handleOutcome cfg s1 f.id tr
       { p.1 with
          futures := fun n => if n = fid then some p.2 else p.1.futures n }) := by
  unfold completeFetch
  rw [h]

/-! ### List helpers -/

theorem find?_filter_ne (l : List Fetch) (fid : Nat) :
    (l.filter (fun g => g.fid != fid)).find? (fun g => g.fid == fid) = none := by
  rw [List.find?_eq_none]
  intro g hg
  have := (List.mem_filter.mp hg).2
  simp only [bne_iff_ne, ne_eq] at this
  simp [this]

theorem find?_of_mem_nodupFid {l : List Fetch} {g : Fetch}
    (hnd : (l.map Fetch.fid).Nodup) (hm : g ∈ l) :
    l.find? (fun x => x.fid == g.fid) = some g := by
  induction l with
  | nil => cases hm
  | cons a t ih =>
      rw [List.map_cons] at hnd
      have hnd' := List.nodup_cons.mp hnd
      rcases List.mem_cons.mp hm with rfl | hm
      · rw [List.find?_cons_of_pos _ (by simp)]
      · have hne : a.fid ≠ g.fid := by
          intro e
          exact hnd'.1 (e ▸ List.mem_map.mpr ⟨g, hm, rfl⟩)
        rw [List.find?_cons_of_neg _ (by simpa using hne)]
        exact ih hnd'.2 hm

theorem length_filter_le_one {l : List Fetch} {p : Fetch → Bool}
    (hnd : l.Nodup)
    (huniq : ∀ a ∈ l, ∀ b ∈ l, p a = true → p b = true → a = b) :
    (l.filter p).length ≤ 1 := by
  rcases hfl : l.filter p with _ | ⟨a, _ | ⟨b, t⟩⟩
  · simp
  · simp
  · exfalso
    have hnd2 : (l.filter p).Nodup := hnd.sublist (List.filter_sublist l)
    rw [hfl] at hnd2
    have ha : a ∈ l.filter p := by rw [hfl]; exact List.mem_cons_self _ _
    have hb : b ∈ l.filter p := by
      rw [hfl]; exact List.mem_cons_of_mem _ (List.mem_cons_self _ _)
    have hab : a = b :=
      huniq a (List.mem_of_mem_filter ha) b (List.mem_of_mem_filter hb)
        (List.of_mem_filter ha) (List.of_mem_filter hb)
    exact (List.nodup_cons.mp hnd2).1 (hab ▸ List.mem_cons_self _ _)

/-! ### The reachable-state invariant -/

theorem wf_init : WF init := by
  refine ⟨?_, ?_, ?_, ?_, ?_, ?_, ?_, ?_, ?_, ?_, ?_⟩ <;>
    simp [init, fnfTargetOk]

theorem wf_fresh {cfg : Config} {s : ServiceState} {id : String}
    (h : WF s) (hc : s.cache id = none) :
    WF { cache := fun i => if i = id then some s.nextFid else s.cache i,
         futures := fun n => if n = s.nextFid then some .pending
                             else s.futures n,
         fetches := ⟨s.nextFid, id, requestPathOf cfg id⟩ :: s.fetches,
         transportLog := ⟨s.nextFid, id, requestPathOf cfg id⟩
                           :: s.transportLog,
         nextFid := s.nextFid + 1 } := by
  refine ⟨?_, ?_, ?_, ?_, ?_, ?_, ?_, ?_, ?_, ?_, ?_⟩ <;> dsimp only
  · intro f hf
    rcases List.mem_cons.mp hf with rfl | hf
    · simp
    · have hCid := h.fetchCache f hf
      have hne : f.id ≠ id := by
        intro e; rw [e, hc] at hCid; cases hCid
      rw [if_neg hne]
      exact hCid
  · intro f hf
    rcases List.mem_cons.mp hf with rfl | hf
    · exact Nat.lt_succ_self _
    · exact Nat.lt_succ_of_lt (h.fetchFresh f hf)
  · intro f hf
    rcases List.mem_cons.mp hf with rfl | hf
    · simp
    · rw [if_neg (Nat.ne_of_lt (h.fetchFresh f hf))]
      exact h.fetchPending f hf
  · rw [List.map_cons]
    refine List.nodup_cons.mpr ⟨?_, h.fidNodup⟩
    intro hm
    rcases List.mem_map.mp hm with ⟨g, hg, hgf⟩
    exact absurd hgf (Nat.ne_of_lt (h.fetchFresh g hg))
  · intro i v hiv
    by_cases hi : i = id
    · rw [if_pos hi] at hiv
      cases hiv
      exact Nat.lt_succ_self _
    · rw [if_neg hi] at hiv
      exact Nat.lt_succ_of_lt (h.cacheFresh i v hiv)
  · intro i v hiv
    by_cases hv : v = s.nextFid
    · subst hv; simp
    · rw [if_neg hv]
      by_cases hi : i = id
      · rw [if_pos hi] at hiv; cases hiv; exact absurd rfl hv
      · rw [if_neg hi] at hiv
        exact h.cacheFut i v hiv
  · intro i v hiv hpend
    by_cases hi : i = id
    · rw [if_pos hi] at hiv
      cases hiv
      exact ⟨_, List.mem_cons_self _ _, rfl, hi.symm⟩
    · rw [if_neg hi] at hiv
      have hlt := h.cacheFresh i v hiv
      have hv : v ≠ s.nextFid := Nat.ne_of_lt hlt
      rw [if_neg hv] at hpend
      rcases h.cachePF i v hiv hpend with ⟨f, hf, hffid, hfid2⟩
      exact ⟨f, List.mem_cons_of_mem _ hf, hffid, hfid2⟩
  · intro i j v hi hj
    by_cases h1 : i = id <;> by_cases h2 : j = id
    · rw [h1, h2]
    · rw [if_pos h1] at hi
      rw [if_neg h2] at hj
      cases hi
      exact absurd (h.cacheFresh j _ hj) (Nat.lt_irrefl _)
    · rw [if_neg h1] at hi
      rw [if_pos h2] at hj
      cases hj
      exact absurd (h.cacheFresh i _ hi) (Nat.lt_irrefl _)
    · rw [if_neg h1] at hi
      rw [if_neg h2] at hj
      exact h.cacheInj i j v hi hj
  · intro v u hv
    by_cases hfn : FILE_NOT_FOUND_ID = id
    · rw [if_pos hfn] at hv
      cases hv
      simp
    · rw [if_neg hfn] at hv
      rw [if_neg (Nat.ne_of_lt (h.cacheFresh _ _ hv))]
      exact h.fnfNL v u hv
  · intro x t hx
    by_cases hxn : x = s.nextFid
    · rw [if_pos hxn] at hx; cases hx
    · rw [if_neg hxn] at hx
      rcases h.linkOk x t hx with ⟨d, hd⟩ | ⟨hp, f, hf, hffid, hfnf⟩
      · exact Or.inl ⟨d, by
          dsimp only
          rw [if_neg (Nat.ne_of_lt (h.futFresh t _ hd))]; exact hd⟩
      · refine Or.inr ⟨by
          dsimp only
          rw [if_neg (Nat.ne_of_lt (h.futFresh t _ hp))]; exact hp,
          f, List.mem_cons_of_mem _ hf, hffid, hfnf⟩
  · intro x st hx
    by_cases hxn : x = s.nextFid
    · subst hxn; exact Nat.lt_succ_self _
    · rw [if_neg hxn] at hx
      exact Nat.lt_succ_of_lt (h.futFresh x st hx)

theorem wf_getDocument {cfg : Config} {s : ServiceState} {url : String}
    (h : WF s) : WF (getDocument cfg s url).1 := by
  rcases hc : s.cache (resolveId url) with _ | v
  · rw [getDocument_miss hc]
    exact wf_fresh h hc
  · rw [getDocument_hit hc]
    exact h

theorem eq_of_mem_fid {l : List Fetch} {f g : Fetch}
    (hnd : (l.map Fetch.fid).Nodup) (hf : f ∈ l) (hg : g ∈ l)
    (e : f.fid = g.fid) : f = g := by
  have h1 := find?_of_mem_nodupFid hnd hf
  have h2 := find?_of_mem_nodupFid hnd hg
  rw [e] at h1
  rw [h1] at h2
  exact Option.some.inj h2

theorem handleOutcome_ok (cfg : Config) (s : ServiceState) (id body : String) :
    handleOutcome cfg s id (.ok body) = (s, .done ⟨id, cfg.render body⟩) := rfl

theorem handleOutcome_404 (cfg : Config) (s : ServiceState) (id msg : String) :
    handleOutcome cfg s id (.err 404 msg) = getFileNotFoundDoc cfg s id := rfl

theorem handleOutcome_err (cfg : Config) (s : ServiceState) (id : String)
    {st : Nat} (msg : String) (h : (st == 404) = false) :
    handleOutcome cfg s id (.err st msg) = getErrorDoc s id := by
  simp [handleOutcome, prePipeline, errStatus404, h]

theorem mem_of_mem_filterFid {s : ServiceState} {fid : Nat} {g : Fetch}
    (hg : g ∈ s.fetches.filter (fun x => x.fid != fid)) :
    g ∈ s.fetches ∧ g.fid ≠ fid := by
  have := List.mem_filter.mp hg
  exact ⟨this.1, by simpa using this.2⟩

theorem nodup_filterFid {s : ServiceState} (h : WF s) (fid : Nat) :
    ((s.fetches.filter (fun x => x.fid != fid)).map Fetch.fid).Nodup :=
  h.fidNodup.sublist ((List.filter_sublist _).map _)

/-- Well-formedness is preserved when a terminal document is latched into
the future of an in-flight fetch (success, short-circuited not-found, or —
together with the cache eviction handled separately — the generic error). -/
theorem wf_latchDone {s : ServiceState} {fid : Nat} {d : DocumentContents}
    (h : WF s) (hlt : fid < s.nextFid) :
    WF { cache := s.cache,
         futures := fun n => if n = fid then some (.done d) else s.futures n,
         fetches := s.fetches.filter (fun g => g.fid != fid),
         transportLog := s.transportLog,
         nextFid := s.nextFid } := by
  refine ⟨?_, ?_, ?_, ?_, ?_, ?_, ?_, ?_, ?_, ?_, ?_⟩ <;> dsimp only
  · intro g hg
    exact h.fetchCache g (mem_of_mem_filterFid hg).1
  · intro g hg
    exact h.fetchFresh g (mem_of_mem_filterFid hg).1
  · intro g hg
    rw [if_neg (mem_of_mem_filterFid hg).2]
    exact h.fetchPending g (mem_of_mem_filterFid hg).1
  · exact nodup_filterFid h fid
  · exact h.cacheFresh
  · intro i v hiv
    by_cases hv : v = fid
    · rw [if_pos hv]; simp
    · rw [if_neg hv]
      exact h.cacheFut i v hiv
  · intro i v hiv hpend
    by_cases hv : v = fid
    · rw [if_pos hv] at hpend; cases hpend
    · rw [if_neg hv] at hpend
      rcases h.cachePF i v hiv hpend with ⟨g, hg, hgfid, hgid⟩
      refine ⟨g, List.mem_filter.mpr ⟨hg, by simp [hgfid, hv]⟩, hgfid, hgid⟩
  · exact h.cacheInj
  · intro v u hv
    by_cases hvf : v = fid
    · rw [if_pos hvf]; simp
    · rw [if_neg hvf]
      exact h.fnfNL v u hv
  · intro x t hx
    by_cases hxf : x = fid
    · rw [if_pos hxf] at hx; cases hx
    · rw [if_neg hxf] at hx
      rcases h.linkOk x t hx with ⟨d0, hd0⟩ | ⟨hp, g, hg, hgfid, hgid⟩
      · by_cases htf : t = fid
        · exact Or.inl ⟨d, by dsimp only; rw [if_pos htf]⟩
        · exact Or.inl ⟨d0, by dsimp only; rw [if_neg htf]; exact hd0⟩
      · by_cases htf : t = fid
        · exact Or.inl ⟨d, by dsimp only; rw [if_pos htf]⟩
        · refine Or.inr ⟨by dsimp only; rw [if_neg htf]; exact hp,
            g, List.mem_filter.mpr ⟨hg, by simp [hgfid, htf]⟩, hgfid, hgid⟩
  · intro x st hx
    by_cases hxf : x = fid
    · subst hxf; exact hlt
    · rw [if_neg hxf] at hx
      exact h.futFresh x st hx

/-- Well-formedness is preserved by the generic-error branch: the future is
latched with the error document and the id is evicted from the cache. -/
theorem wf_errorDone {s : ServiceState} {f : Fetch} {d : DocumentContents}
    (h : WF s) (hmem : f ∈ s.fetches) :
    WF { cache := fun i => if i = f.id then none else s.cache i,
         futures := fun n => if n = f.fid then some (.done d) else s.futures n,
         fetches := s.fetches.filter (fun g => g.fid != f.fid),
         transportLog := s.transportLog,
         nextFid := s.nextFid } := by
  have hcf : s.cache f.id = some f.fid := h.fetchCache f hmem
  refine ⟨?_, ?_, ?_, ?_, ?_, ?_, ?_, ?_, ?_, ?_, ?_⟩ <;> dsimp only
  · intro g hg
    rcases mem_of_mem_filterFid hg with ⟨hg1, hg2⟩
    have hne : g.id ≠ f.id := by
      intro e
      have h2 := h.fetchCache g hg1
      rw [e, hcf] at h2
      exact hg2 (Option.some.inj h2).symm
    rw [if_neg hne]
    exact h.fetchCache g hg1
  · intro g hg
    exact h.fetchFresh g (mem_of_mem_filterFid hg).1
  · intro g hg
    rw [if_neg (mem_of_mem_filterFid hg).2]
    exact h.fetchPending g (mem_of_mem_filterFid hg).1
  · exact nodup_filterFid h f.fid
  · intro i v hiv
    by_cases hi : i = f.id
    · rw [if_pos hi] at hiv; cases hiv
    · rw [if_neg hi] at hiv
      exact h.cacheFresh i v hiv
  · intro i v hiv
    by_cases hv : v = f.fid
    · rw [if_pos hv]; simp
    · rw [if_neg hv]
      by_cases hi : i = f.id
      · rw [if_pos hi] at hiv; cases hiv
      · rw [if_neg hi] at hiv
        exact h.cacheFut i v hiv
  · intro i v hiv hpend
    by_cases hi : i = f.id
    · rw [if_pos hi] at hiv; cases hiv
    · rw [if_neg hi] at hiv
      by_cases hv : v = f.fid
      · rw [if_pos hv] at hpend; cases hpend
      · rw [if_neg hv] at hpend
        rcases h.cachePF i v hiv hpend with ⟨g, hg, hgfid, hgid⟩
        refine ⟨g, List.mem_filter.mpr ⟨hg, by simp [hgfid, hv]⟩, hgfid, hgid⟩
  · intro i j v hi hj
    by_cases h1 : i = f.id
    · rw [if_pos h1] at hi; cases hi
    · by_cases h2 : j = f.id
      · rw [if_pos h2] at hj; cases hj
      · rw [if_neg h1] at hi
        rw [if_neg h2] at hj
        exact h.cacheInj i j v hi hj
  · intro v u hv
    by_cases h1 : FILE_NOT_FOUND_ID = f.id
    · rw [if_pos h1] at hv; cases hv
    · rw [if_neg h1] at hv
      by_cases hvf : v = f.fid
      · rw [if_pos hvf]; simp
      · rw [if_neg hvf]
        exact h.fnfNL v u hv
  · intro x t hx
    by_cases hxf : x = f.fid
    · rw [if_pos hxf] at hx; cases hx
    · rw [if_neg hxf] at hx
      rcases h.linkOk x t hx with ⟨d0, hd0⟩ | ⟨hp, g, hg, hgfid, hgid⟩
      · by_cases htf : t = f.fid
        · exact Or.inl ⟨d, by dsimp only; rw [if_pos htf]⟩
        · exact Or.inl ⟨d0, by dsimp only; rw [if_neg htf]; exact hd0⟩
      · by_cases htf : t = f.fid
        · exact Or.inl ⟨d, by dsimp only; rw [if_pos htf]⟩
        · refine Or.inr ⟨by dsimp only; rw [if_neg htf]; exact hp,
            g, List.mem_filter.mpr ⟨hg, by simp [hgfid, htf]⟩, hgfid, hgid⟩
  · intro x st hx
    by_cases hxf : x = f.fid
    · subst hxf; exact h.fetchFresh f hmem
    · rw [if_neg hxf] at hx
      exact h.futFresh x st hx

/-- Well-formedness is preserved by the not-found branch when the not-found
future is already cached: the completing future becomes a link to it. -/
theorem wf_link_hit {s : ServiceState} {f : Fetch} {v : Nat}
    (h : WF s) (hmem : f ∈ s.fetches) (hid : f.id ≠ FILE_NOT_FOUND_ID)
    (hcF : s.cache FILE_NOT_FOUND_ID = some v) :
    WF { cache := s.cache,
         futures := fun n => if n = f.fid then some (.linked v)
                             else s.futures n,
         fetches := s.fetches.filter (fun g => g.fid != f.fid),
         transportLog := s.transportLog,
         nextFid := s.nextFid } := by
  have hcf : s.cache f.id = some f.fid := h.fetchCache f hmem
  have hvne : v ≠ f.fid := by
    intro e
    exact hid (h.cacheInj f.id FILE_NOT_FOUND_ID f.fid hcf (e ▸ hcF))
  refine ⟨?_, ?_, ?_, ?_, ?_, ?_, ?_, ?_, ?_, ?_, ?_⟩ <;> dsimp only
  · intro g hg
    exact h.fetchCache g (mem_of_mem_filterFid hg).1
  · intro g hg
    exact h.fetchFresh g (mem_of_mem_filterFid hg).1
  · intro g hg
    rw [if_neg (mem_of_mem_filterFid hg).2]
    exact h.fetchPending g (mem_of_mem_filterFid hg).1
  · exact nodup_filterFid h f.fid
  · exact h.cacheFresh
  · intro i v0 hiv
    by_cases hv : v0 = f.fid
    · rw [if_pos hv]; simp
    · rw [if_neg hv]
      exact h.cacheFut i v0 hiv
  · intro i v0 hiv hpend
    by_cases hv : v0 = f.fid
    · rw [if_pos hv] at hpend; cases hpend
    · rw [if_neg hv] at hpend
      rcases h.cachePF i v0 hiv hpend with ⟨g, hg, hgfid, hgid⟩
      refine ⟨g, List.mem_filter.mpr ⟨hg, by simp [hgfid, hv]⟩, hgfid, hgid⟩
  · exact h.cacheInj
  · intro v0 u hv0
    have hvv : v0 = v := by
      rw [hcF] at hv0
      exact (Option.some.inj hv0).symm
    subst hvv
    rw [if_neg hvne]
    exact h.fnfNL v0 u hcF
  · intro x t hx
    by_cases hxf : x = f.fid
    · rw [if_pos hxf] at hx
      have htv : t = v := (FutureState.linked.inj (Option.some.inj hx)).symm
      subst htv
      rcases hft : s.futures t with _ | st
      · exact absurd hft (h.cacheFut _ _ hcF)
      · cases st with
        | pending =>
            rcases h.cachePF _ _ hcF hft with ⟨g, hg, hgfid, hgid⟩
            refine Or.inr ⟨by dsimp only; rw [if_neg hvne]; exact hft,
              g, List.mem_filter.mpr ⟨hg, by simp [hgfid, hvne]⟩, hgfid, hgid⟩
        | linked u => exact absurd hft (h.fnfNL _ u hcF)
        | done d0 =>
            exact Or.inl ⟨d0, by dsimp only; rw [if_neg hvne]; exact hft⟩
    · rw [if_neg hxf] at hx
      rcases h.linkOk x t hx with ⟨d0, hd0⟩ | ⟨hp, g, hg, hgfid, hgid⟩
      · have htf : t ≠ f.fid := by
          intro e
          rw [e, h.fetchPending f hmem] at hd0
          cases hd0
        exact Or.inl ⟨d0, by dsimp only; rw [if_neg htf]; exact hd0⟩
      · have htf : t ≠ f.fid := by
          intro e
          have : g = f := eq_of_mem_fid h.fidNodup hg hmem (by rw [hgfid, e])
          rw [this] at hgid
          exact hid hgid
        refine Or.inr ⟨by dsimp only; rw [if_neg htf]; exact hp,
          g, List.mem_filter.mpr ⟨hg, by simp [hgfid, htf]⟩, hgfid, hgid⟩
  · intro x st hx
    by_cases hxf : x = f.fid
    · subst hxf; exact h.fetchFresh f hmem
    · rw [if_neg hxf] at hx
      exact h.futFresh x st hx

/-- Well-formedness is preserved by the not-found branch when the not-found
future is not cached yet: a fresh fetch for the reserved id is issued and
the completing future becomes a link to its future. -/
theorem wf_link_miss {cfg : Config} {s : ServiceState} {f : Fetch}
    (h : WF s) (hmem : f ∈ s.fetches) (hid : f.id ≠ FILE_NOT_FOUND_ID)
    (hcF : s.cache FILE_NOT_FOUND_ID = none) :
    WF { cache := fun i => if i = FILE_NOT_FOUND_ID then some s.nextFid
                           else s.cache i,
         futures := fun n => if n = f.fid then some (.linked s.nextFid)
                             else if n = s.nextFid then some .pending
                             else s.futures n,
         fetches :=
           ⟨s.nextFid, FILE_NOT_FOUND_ID, requestPathOf cfg FILE_NOT_FOUND_ID⟩
             :: s.fetches.filter (fun g => g.fid != f.fid),
         transportLog :=
           ⟨s.nextFid, FILE_NOT_FOUND_ID, requestPathOf cfg FILE_NOT_FOUND_ID⟩
             :: s.transportLog,
         nextFid := s.nextFid + 1 } := by
  have hcf : s.cache f.id = some f.fid := h.fetchCache f hmem
  have hflt : f.fid < s.nextFid := h.fetchFresh f hmem
  have hnn : s.nextFid ≠ f.fid := (Nat.ne_of_lt hflt).symm
  refine ⟨?_, ?_, ?_, ?_, ?_, ?_, ?_, ?_, ?_, ?_, ?_⟩ <;> dsimp only
  · intro g hg
    rcases List.mem_cons.mp hg with rfl | hg
    · simp
    · rcases mem_of_mem_filterFid hg with ⟨hg1, hg2⟩
      have hne : g.id ≠ FILE_NOT_FOUND_ID := by
        intro e
        have h2 := h.fetchCache g hg1
        rw [e, hcF] at h2
        cases h2
      rw [if_neg hne]
      exact h.fetchCache g hg1
  · intro g hg
    rcases List.mem_cons.mp hg with rfl | hg
    · exact Nat.lt_succ_self _
    · exact Nat.lt_succ_of_lt (h.fetchFresh g (mem_of_mem_filterFid hg).1)
  · intro g hg
    rcases List.mem_cons.mp hg with rfl | hg
    · rw [if_neg hnn, if_pos rfl]
    · rcases mem_of_mem_filterFid hg with ⟨hg1, hg2⟩
      rw [if_neg hg2, if_neg (Nat.ne_of_lt (h.fetchFresh g hg1))]
      exact h.fetchPending g hg1
  · rw [List.map_cons]
    refine List.nodup_cons.mpr ⟨?_, nodup_filterFid h f.fid⟩
    intro hm
    rcases List.mem_map.mp hm with ⟨g, hg, hgf⟩
    exact absurd hgf
      (Nat.ne_of_lt (h.fetchFresh g (mem_of_mem_filterFid hg).1))
  · intro i v hiv
    by_cases hi : i = FILE_NOT_FOUND_ID
    · rw [if_pos hi] at hiv
      cases hiv
      exact Nat.lt_succ_self _
    · rw [if_neg hi] at hiv
      exact Nat.lt_succ_of_lt (h.cacheFresh i v hiv)
  · intro i v hiv
    by_cases hvf : v = f.fid
    · rw [if_pos hvf]; simp
    · rw [if_neg hvf]
      by_cases hvn : v = s.nextFid
      · rw [if_pos hvn]; simp
      · rw [if_neg hvn]
        by_cases hi : i = FILE_NOT_FOUND_ID
        · rw [if_pos hi] at hiv; cases hiv; exact absurd rfl hvn
        · rw [if_neg hi] at hiv
          exact h.cacheFut i v hiv
  · intro i v hiv hpend
    by_cases hi : i = FILE_NOT_FOUND_ID
    · rw [if_pos hi] at hiv
      cases hiv
      exact ⟨_, List.mem_cons_self _ _, rfl, hi.symm⟩
    · rw [if_neg hi] at hiv
      have hvlt := h.cacheFresh i v hiv
      by_cases hvf : v = f.fid
      · rw [if_pos hvf] at hpend; cases hpend
      · rw [if_neg hvf, if_neg (Nat.ne_of_lt hvlt)] at hpend
        rcases h.cachePF i v hiv hpend with ⟨g, hg, hgfid, hgid⟩
        exact ⟨g, List.mem_cons_of_mem _
          (List.mem_filter.mpr ⟨hg, by simp [hgfid, hvf]⟩), hgfid, hgid⟩
  · intro i j v hi hj
    by_cases h1 : i = FILE_NOT_FOUND_ID <;> by_cases h2 : j = FILE_NOT_FOUND_ID
    · rw [h1, h2]
    · rw [if_pos h1] at hi
      rw [if_neg h2] at hj
      cases hi
      exact absurd (h.cacheFresh j _ hj) (Nat.lt_irrefl _)
    · rw [if_neg h1] at hi
      rw [if_pos h2] at hj
      cases hj
      exact absurd (h.cacheFresh i _ hi) (Nat.lt_irrefl _)
    · rw [if_neg h1] at hi
      rw [if_neg h2] at hj
      exact h.cacheInj i j v hi hj
  · intro v u hv
    rw [if_pos rfl] at hv
    cases hv
    rw [if_neg hnn, if_pos rfl]
    simp
  · intro x t hx
    by_cases hxf : x = f.fid
    · rw [if_pos hxf] at hx
      have htn : t = s.nextFid := (FutureState.linked.inj (Option.some.inj hx)).symm
      subst htn
      refine Or.inr ⟨by dsimp only; rw [if_neg hnn, if_pos rfl],
        _, List.mem_cons_self _ _, rfl, rfl⟩
    · rw [if_neg hxf] at hx
      by_cases hxn : x = s.nextFid
      · rw [if_pos hxn] at hx; cases hx
      · rw [if_neg hxn] at hx
        rcases h.linkOk x t hx with ⟨d0, hd0⟩ | ⟨hp, g, hg, hgfid, hgid⟩
        · have htf : t ≠ f.fid := by
            intro e
            rw [e, h.fetchPending f hmem] at hd0
            cases hd0
          have htn : t ≠ s.nextFid := Nat.ne_of_lt (h.futFresh t _ hd0)
          exact Or.inl ⟨d0, by dsimp only; rw [if_neg htf, if_neg htn]; exact hd0⟩
        · have htf : t ≠ f.fid := by
            intro e
            have : g = f := eq_of_mem_fid h.fidNodup hg hmem (by rw [hgfid, e])
            rw [this] at hgid
            exact hid hgid
          have htn : t ≠ s.nextFid := Nat.ne_of_lt (h.futFresh t _ hp)
          refine Or.inr ⟨by dsimp only; rw [if_neg htf, if_neg htn]; exact hp,
            g, List.mem_cons_of_mem _
              (List.mem_filter.mpr ⟨hg, by simp [hgfid, htf]⟩), hgfid, hgid⟩
  · intro x st hx
    by_cases hxf : x = f.fid
    · subst hxf; exact Nat.lt_succ_of_lt hflt
    · rw [if_neg hxf] at hx
      by_cases hxn : x = s.nextFid
      · subst hxn; exact Nat.lt_succ_self _
      · rw [if_neg hxn] at hx
        exact Nat.lt_succ_of_lt (h.futFresh x st hx)

theorem wf_completeFetch {cfg : Config} {s : ServiceState} {fid : Nat}
    {tr : TransportResult} (h : WF s) : WF (completeFetch cfg s fid tr) := by
  rcases hf : findFetch s fid with _ | f
  · rw [completeFetch_noFetch hf]
    exact h
  · have hmem : f ∈ s.fetches := List.mem_of_find?_eq_some hf
    have hfid : f.fid = fid := by simpa using List.find?_some hf
    subst hfid
    rw [completeFetch_eq hf]
    cases tr with
    | ok body =>
        simp only [handleOutcome_ok]
        exact wf_latchDone h (h.fetchFresh f hmem)
    | err st msg =>
        by_cases hst : st = 404
        · subst hst
          simp only [handleOutcome_404]
          by_cases hid : f.id = FILE_NOT_FOUND_ID
          · simp only [getFileNotFoundDoc, hid, ne_eq, not_true_eq_false,
              if_false, ite_false]
            exact wf_latchDone h (h.fetchFresh f hmem)
          · rcases hcF : s.cache FILE_NOT_FOUND_ID with _ | v
            · have hcF1 : ({ s with
                  fetches := s.fetches.filter (fun g => g.fid != f.fid) }
                    : ServiceState).cache (resolveId FILE_NOT_FOUND_ID) =
                  none := hcF
              simp only [getFileNotFoundDoc, hid, ne_eq, not_false_iff,
                if_true, ite_true, getDocument_miss hcF1]
              exact wf_link_miss h hmem hid hcF
            · have hcF1 : ({ s with
                  fetches := s.fetches.filter (fun g => g.fid != f.fid) }
                    : ServiceState).cache (resolveId FILE_NOT_FOUND_ID) =
                  some v := hcF
              simp only [getFileNotFoundDoc, hid, ne_eq, not_false_iff,
                if_true, ite_true, getDocument_hit hcF1]
              exact wf_link_hit h hmem hid hcF
        · have hst' : (st == 404) = false := by simpa using hst
          simp only [handleOutcome_err _ _ _ _ hst', getErrorDoc]
          exact wf_errorDone h hmem

theorem wf_step {cfg : Config} {s : ServiceState} {e : Event}
    (h : WF s) : WF (step cfg s e) := by
  cases e with
  | request url => exact wf_getDocument h
  | response fid tr => exact wf_completeFetch h

theorem wf_run {cfg : Config} {s : ServiceState} {es : List Event}
    (h : WF s) : WF (run cfg s es) := by
  induction es generalizing s with
  | nil => exact h
  | cons e es ih => exact ih (wf_step h)

/-! ### C3 — the identifier resolver -/

/-- C3: the resolver maps the empty path to the id "index"; the source
document is the alias-table entry when the id is an alias key, "placeholder"
when the id is in the placeholder set, and the id itself otherwise; and the
fetched content path is `baseHref ++ "content/docs/" ++ sourceDoc ++ ".md"`
(checked in particular for the empty navigation path). -/
theorem resolver_spec :
    resolveId "" = "index" ∧
    (∀ id d, indexMap.lookup id = some d → sourceDoc id = d) ∧
    (∀ id, indexMap.lookup id = none → id ∈ placeholders →
      sourceDoc id = "placeholder") ∧
    (∀ id, indexMap.lookup id = none → id ∉ placeholders →
      sourceDoc id = id) ∧
    (∀ cfg id, requestPathOf cfg id =
      cfg.baseHref ++ "content/docs/" ++ sourceDoc id ++ ".md") ∧
    (∀ (cfg : Config) (s : ServiceState), s.cache "index" = none →
      (getDocument cfg s "").1.transportLog.head? =
        some ⟨s.nextFid, "index",
              cfg.baseHref ++ "content/docs/" ++ "index" ++ ".md"⟩) := by
  refine ⟨rfl, ?_, ?_, ?_, ?_, ?_⟩
  · intro id d h
    unfold sourceDoc
    rw [h]
  · intro id h hm
    unfold sourceDoc
    rw [h]
    have : (placeholders.find? (fun ph => ph = id)).isSome := by
      simp only [placeholders, List.mem_cons, List.mem_singleton,
        List.not_mem_nil, or_false] at hm
      rcases hm with rfl | rfl <;> rfl
    simp [this]
  · intro id h hm
    unfold sourceDoc
    rw [h]
    match hf : placeholders.find? (fun ph => ph = id) with
    | some ph =>
        have h1 : ph = id := by simpa using List.find?_some hf
        have h2 : ph ∈ placeholders := List.mem_of_find?_eq_some hf
        exact absurd (h1 ▸ h2) hm
    | none => simp
  · intro cfg id
    rfl
  · intro cfg s h
    have h0 : s.cache (resolveId "") = none := h
    rw [getDocument_miss h0]
    rfl

/-! ### C7 — the not-found short circuit -/

/-- C7: resolving the reserved not-found id yields the immediately-completed
document `{ id := FILE_NOT_FOUND_ID, contents := "Document not found" }`;
the state is returned unchanged, so there is no transport call and no cache
interaction. -/
theorem file_not_found_short_circuit :
    ∀ (cfg : Config) (s : ServiceState),
      getFileNotFoundDoc cfg s FILE_NOT_FOUND_ID =
        (s, .done ⟨ FILE_NOT_FOUND_ID, .jstr "Document not found"⟩) := by
  intro cfg s
  unfold getFileNotFoundDoc
  simp

/-! ### C10 — the `tap` check inspects the object literal from `map` -/

/-- C10: on the success path the value inspected by the `tap` validation is
the object literal `{ id, contents }` built by `map`, which is never falsy
and has typeof "object"; hence the Invalid-data branch is unreachable on a
successful response, and in particular a null or undefined renderer output
does not trigger a transform failure — the document simply carries the null
contents. -/
theorem map_output_always_object :
    ∀ (cfg : Config) (s : ServiceState) (id body : String),
      invalidData (.vobj ⟨id, cfg.render body⟩) = false ∧
      prePipeline cfg id (.ok body) = .ok ⟨id, cfg.render body⟩ ∧
      handleOutcome cfg s id (.ok body) =
        (s, .done ⟨id, cfg.render body⟩) := by
  intro cfg s id body
  exact ⟨rfl, rfl, rfl⟩

/-! ### C8 — the validation of the renderer's output -/

/-- C8 (code bug evidence): with a renderer that returns `null`, a
successful transport response for id "index" completes the future with
`{ id := "index", contents := null }`.  No transform failure is raised: the
cache entry survives and the generic-error branch (which would have produced
`FETCHING_ERROR_ID` and evicted the id) is not taken, because the `tap`
check inspects the always-truthy object literal instead of the renderer's
output. -/
theorem invalid_data_check_dead :
    (run ⟨"/", fun _ => Jsv.jnull⟩ init
        [.request "index", .response 0 (.ok "hello")]).futures 0 =
      some (.done ⟨"index", Jsv.jnull⟩) ∧
    (run ⟨"/", fun _ => Jsv.jnull⟩ init
        [.request "index", .response 0 (.ok "hello")]).cache "index" = some 0 ∧
    "index" ≠ FETCHING_ERROR_ID ∧
    invalidData (.vobj ⟨"index", Jsv.jnull⟩) = false := by
  refine ⟨?_, ?_, ?_, rfl⟩ <;> decide

/-! ### C4 — the success round trip -/

/-- C4: when the transport returns text `T` for the request issued for id
`X`, the future completes with `{ id := X, contents := render T }` — the id
is the originally requested one even when the source document was
substituted by the alias table or the placeholder rule. -/
theorem success_roundtrip :
    ∀ (cfg : Config) (s : ServiceState) (url T : String),
      s.cache (resolveId url) = none →
      (completeFetch cfg (getDocument cfg s url).1 (getDocument cfg s url).2
          (.ok T)).futures (getDocument cfg s url).2 =
        some (.done ⟨resolveId url, cfg.render T⟩) := by
  intro cfg s url T h
  rw [getDocument_miss h]
  have hf : findFetch
      ({ cache := fun i => if i = resolveId url then some s.nextFid
                           else s.cache i,
         futures := fun n => if n = s.nextFid then some .pending
                             else s.futures n,
         fetches := ⟨s.nextFid, resolveId url, requestPathOf cfg (resolveId url)⟩
                      :: s.fetches,
         transportLog :=
           ⟨s.nextFid, resolveId url, requestPathOf cfg (resolveId url)⟩
             :: s.transportLog,
         nextFid := s.nextFid + 1 } : ServiceState) s.nextFid =
      some ⟨s.nextFid, resolveId url, requestPathOf cfg (resolveId url)⟩ := by
    unfold findFetch
    simp [List.find?]
  rw [completeFetch_eq hf]
  simp [handleOutcome, prePipeline_ok]

/-! ### C1 — deduplication and the single-fetch invariant -/

/-- C1: a second `getDocument` call for the same url returns the very same
future and leaves the state untouched; in particular, for an id already
resolved to a completed document the cached result is returned with no new
transport call; and in every reachable state at most one fetch is in flight
per document id. -/
theorem getDocument_dedup_and_single_fetch :
    (∀ (cfg : Config) (s : ServiceState) (url : String),
      getDocument cfg (getDocument cfg s url).1 url = getDocument cfg s url) ∧
    (∀ (cfg : Config) (s : ServiceState) (url : String) (v : Nat)
        (d : DocumentContents),
      s.cache (resolveId url) = some v → s.futures v = some (.done d) →
      getDocument cfg s url = (s, v)) ∧
    (∀ (cfg : Config) (es : List Event) (id : String),
      countFetches (run cfg init es) id ≤ 1) := by
  refine ⟨?_, ?_, ?_⟩
  · intro cfg s url
    rcases hc : s.cache (resolveId url) with _ | v
    · have h1 : (getDocument cfg s url).1.cache (resolveId url) =
          some ((getDocument cfg s url).2) := by
        rw [getDocument_miss hc]
        dsimp only
        rw [if_pos rfl]
      rw [getDocument_hit h1]
    · rw [getDocument_hit hc]
      dsimp only
      rw [getDocument_hit hc]
  · intro cfg s url v d h1 _
    exact getDocument_hit h1
  · intro cfg es id
    have hw : WF (run cfg init es) := wf_run wf_init
    unfold countFetches
    apply length_filter_le_one (hw.fidNodup.of_map)
    intro a ha b hb hpa hpb
    have ha2 : a.id = id := by simpa using hpa
    have hb2 : b.id = id := by simpa using hpb
    have h1 := hw.fetchCache a ha
    have h2 := hw.fetchCache b hb
    rw [ha2] at h1
    rw [hb2, h1] at h2
    exact eq_of_mem_fid hw.fidNodup ha hb (Option.some.inj h2)

theorem getDocument_dedup_witness :
    (sW.cache (resolveId "a") = some 0 ∧
     sW.futures 0 = some (.done ⟨"a", Jsv.jstr "X"⟩) ∧
     getDocument cfgW sW "a" = (sW, 0)) ∧
    countFetches (run cfgW init [.request "a", .request "a"]) "a" ≤ 1 := by
  refine ⟨⟨by decide, by decide, ?_⟩, ?_⟩
  · exact getDocument_dedup_and_single_fetch.2.1 cfgW sW "a" 0
      ⟨"a", Jsv.jstr "X"⟩ (by decide) (by decide)
  · exact getDocument_dedup_and_single_fetch.2.2 cfgW
      [.request "a", .request "a"] "a"

/-! ### C5 — the generic-error branch -/

/-- C5: a transport failure with a non-404 status latches the fixed
fetching-error document into the future, evicts the id from the cache,
issues no transport request and creates no fetch (the branch never
re-enters the coordinator); a subsequent `getDocument` for the same id is a
cache miss and hands a fresh request to the transport. -/
theorem generic_error_branch :
    ∀ (cfg : Config) (s : ServiceState) (f : Fetch) (st : Nat) (msg : String),
      findFetch s f.fid = some f →
      (st == 404) = false →
      f.id ≠ "" →
      (completeFetch cfg s f.fid (.err st msg)).futures f.fid =
        some (.done ⟨ FETCHING_ERROR_ID, .jstr FETCHING_ERROR_CONTENTS⟩) ∧
      (completeFetch cfg s f.fid (.err st msg)).cache f.id = none ∧
      (completeFetch cfg s f.fid (.err st msg)).transportLog =
        s.transportLog ∧
      (completeFetch cfg s f.fid (.err st msg)).fetches =
        s.fetches.filter (fun g => g.fid != f.fid) ∧
      (getDocument cfg (completeFetch cfg s f.fid (.err st msg))
          f.id).1.transportLog =
        (⟨s.nextFid, f.id, requestPathOf cfg f.id⟩ : Fetch)
          :: s.transportLog ∧
      (getDocument cfg (completeFetch cfg s f.fid (.err st msg)) f.id).2 =
        s.nextFid := by
  intro cfg s f st msg hFind h404 hne
  have hres : resolveId f.id = f.id := if_neg hne
  have hcomp : completeFetch cfg s f.fid (.err st msg) =
      { cache := fun i => if i = f.id then none else s.cache i,
        futures := fun n => if n = f.fid then
            some (.done ⟨ FETCHING_ERROR_ID, .jstr FETCHING_ERROR_CONTENTS⟩)
          else s.futures n,
        fetches := s.fetches.filter (fun g => g.fid != f.fid),
        transportLog := s.transportLog,
        nextFid := s.nextFid } := by
    rw [completeFetch_eq hFind]
    simp only [handleOutcome_err _ _ _ _ h404, getErrorDoc]
  have hmiss : (completeFetch cfg s f.fid (.err st msg)).cache
      (resolveId f.id) = none := by
    rw [hcomp, hres]
    dsimp only
    rw [if_pos rfl]
  refine ⟨?_, ?_, ?_, ?_, ?_, ?_⟩
  · rw [hcomp]
    dsimp only
    rw [if_pos rfl]
  · rw [hcomp]
    dsimp only
    rw [if_pos rfl]
  · rw [hcomp]
  · rw [hcomp]
  · rw [getDocument_miss hmiss, hcomp]
    dsimp only
    rw [hres]
  · rw [getDocument_miss hmiss, hcomp]

theorem generic_error_witness :
    (findFetch (getDocument cfgW init "y").1 0 =
        some ⟨0, "y", "/content/docs/y.md"⟩ ∧
     ((500 : Nat) == 404) = false ∧
     ("y" : String) ≠ "") ∧
    (completeFetch cfgW (getDocument cfgW init "y").1 0
        (.err 500 "boom")).cache "y" = none ∧
    (getDocument cfgW
        (completeFetch cfgW (getDocument cfgW init "y").1 0 (.err 500 "boom"))
        "y").2 = 1 := by
  have h := generic_error_branch cfgW (getDocument cfgW init "y").1
    ⟨0, "y", "/content/docs/y.md"⟩ 500 "boom" (by decide) (by decide)
    (by decide)
  exact ⟨⟨by decide, by decide, by decide⟩, h.2.1, h.2.2.2.2.2⟩

theorem resolver_spec_witness :
    (indexMap.lookup "guide/store" = some "guide/store/index" ∧
     sourceDoc "guide/store" = "guide/store/index") ∧
    (indexMap.lookup "resources" = none ∧ "resources" ∈ placeholders ∧
     sourceDoc "resources" = "placeholder") ∧
    (indexMap.lookup "api" = none ∧ "api" ∉ placeholders ∧
     sourceDoc "api" = "api") ∧
    (init.cache "index" = none ∧
     (getDocument cfgW init "").1.transportLog.head? =
       some ⟨0, "index", "/" ++ "content/docs/" ++ "index" ++ ".md"⟩) := by
  refine ⟨⟨by decide, ?_⟩, ⟨by decide, by decide, ?_⟩,
    ⟨by decide, by decide, ?_⟩, ⟨by decide, ?_⟩⟩
  · exact resolver_spec.2.1 "guide/store" "guide/store/index" (by decide)
  · exact resolver_spec.2.2.1 "resources" (by decide) (by decide)
  · exact resolver_spec.2.2.2.1 "api" (by decide) (by decide)
  · exact resolver_spec.2.2.2.2.2 cfgW init (by decide)

theorem success_roundtrip_witness :
    (init.cache (resolveId "guide/store") = none) ∧
    (completeFetch cfgW (getDocument cfgW init "guide/store").1
        (getDocument cfgW init "guide/store").2 (.ok "T")).futures
      (getDocument cfgW init "guide/store").2 =
      some (.done ⟨"guide/store", cfgW.render "T"⟩) ∧
    requestPathOf cfgW "guide/store" = "/content/docs/guide/store/index.md" := by
  refine ⟨by decide, ?_, by decide⟩
  exact success_roundtrip cfgW init "guide/store" "T" (by decide)

/-! ### Helpers for resolution of futures -/

theorem resolveFuture_done {s : ServiceState} {n fid : Nat}
    {d : DocumentContents} (h : s.futures fid = some (.done d)) :
    resolveFuture s (n + 1) fid = some d := by
  simp [resolveFuture, h]

theorem resolveFuture_linked {s : ServiceState} {n fid t : Nat}
    (h : s.futures fid = some (.linked t)) :
    resolveFuture s (n + 1) fid = resolveFuture s n t := by
  simp [resolveFuture, h]

theorem findFetch_none_of_not_pending {s : ServiceState} {fid : Nat}
    (h : WF s) (hnp : s.futures fid ≠ some .pending) :
    findFetch s fid = none := by
  rcases hf : findFetch s fid with _ | g
  · rfl
  · have hmem := List.mem_of_find?_eq_some hf
    have hgf : g.fid = fid := by simpa using List.find?_some hf
    exact absurd (hgf ▸ h.fetchPending g hmem) hnp

theorem findFetch_of_memState {s : ServiceState} {g : Fetch}
    (hnd : (s.fetches.map Fetch.fid).Nodup) (hm : g ∈ s.fetches) :
    findFetch s g.fid = some g :=
  find?_of_mem_nodupFid hnd hm

theorem getDocument_miss_findFetch {cfg : Config} {s : ServiceState}
    {url : String} (hc : s.cache (resolveId url) = none) :
    findFetch (getDocument cfg s url).1 (getDocument cfg s url).2 =
      some ⟨s.nextFid, resolveId url, requestPathOf cfg (resolveId url)⟩ := by
  rw [getDocument_miss hc]
  dsimp [findFetch]
  rw [List.find?_cons_of_pos _ (by simp)]

/-- Completing the fetch of the reserved not-found id latches a document
for every transport outcome (success, 404 short circuit, generic error) and
touches no other future. -/
theorem completeFnf_done {cfg : Config} {s : ServiceState} {v : Nat}
    {g : Fetch} (hf : findFetch s v = some g)
    (hgid : g.id = FILE_NOT_FOUND_ID) (tr2 : TransportResult) :
    ∃ d2, (completeFetch cfg s v tr2).futures v = some (.done d2) ∧
      ∀ m, m ≠ v → (completeFetch cfg s v tr2).futures m = s.futures m := by
  rw [completeFetch_eq hf]
  cases tr2 with
  | ok body =>
      refine ⟨⟨g.id, cfg.render body⟩, ?_, ?_⟩
      · simp [handleOutcome_ok]
      · intro m hm
        simp [handleOutcome_ok, hm]
  | err st msg =>
      by_cases hst : st = 404
      · subst hst
        refine ⟨⟨ FILE_NOT_FOUND_ID, .jstr "Document not found"⟩, ?_, ?_⟩
        · simp [handleOutcome_404, getFileNotFoundDoc, hgid]
        · intro m hm
          simp [handleOutcome_404, getFileNotFoundDoc, hgid, hm]
      · have h404 : (st == 404) = false := by simpa using hst
        refine ⟨⟨ FETCHING_ERROR_ID, .jstr FETCHING_ERROR_CONTENTS⟩, ?_, ?_⟩
        · simp [handleOutcome_err _ _ _ _ h404, getErrorDoc]
        · intro m hm
          simp [handleOutcome_err _ _ _ _ h404, getErrorDoc, hm]

/-! ### Counting transport requests for the not-found content -/

theorem qInv_init : QInv init := by
  constructor
  · decide
  · intro _
    decide

theorem qInv_getDocument {cfg : Config} {s : ServiceState} {url : String}
    (hq : QInv s) : QInv (getDocument cfg s url).1 := by
  rcases hc : s.cache (resolveId url) with _ | v
  · rw [getDocument_miss hc]
    by_cases hid : resolveId url = FILE_NOT_FOUND_ID
    · have h0 : countFnf s = 0 := hq.2 (by rw [← hid]; exact hc)
      constructor
      · unfold countFnf at h0 ⊢
        dsimp only
        rw [List.filter_cons, if_pos (by simp [hid])]
        simp only [List.length_cons]
        omega
      · intro hnone
        dsimp only at hnone
        rw [if_pos hid.symm] at hnone
        cases hnone
    · have hbeq : (resolveId url == FILE_NOT_FOUND_ID) = false := by
        simpa using hid
      constructor
      · unfold countFnf
        dsimp only
        rw [List.filter_cons, if_neg (by simp [hbeq])]
        exact hq.1
      · intro hnone
        dsimp only at hnone
        rw [if_neg (fun e => hid e.symm)] at hnone
        have h0 := hq.2 hnone
        unfold countFnf at h0 ⊢
        dsimp only
        rw [List.filter_cons, if_neg (by simp [hbeq])]
        exact h0
  · rw [getDocument_hit hc]
    exact hq

theorem qInv_completeFetch {cfg : Config} {s : ServiceState} {fid : Nat}
    {tr : TransportResult} (hq : QInv s)
    (hb : benign (.response fid tr) = true) :
    QInv (completeFetch cfg s fid tr) := by
  rcases hf : findFetch s fid with _ | f
  · rw [completeFetch_noFetch hf]
    exact hq
  · rw [completeFetch_eq hf]
    cases tr with
    | ok body =>
        simp only [handleOutcome_ok]
        exact hq
    | err st msg =>
        have hst : st = 404 := by simpa [benign] using hb
        subst hst
        simp only [handleOutcome_404, getFileNotFoundDoc]
        by_cases hid : f.id = FILE_NOT_FOUND_ID
        · rw [if_neg (by simp [hid])]
          exact hq
        · rw [if_pos hid]
          rcases hcF : s.cache FILE_NOT_FOUND_ID with _ | v
          · have hcF1 : ({ s with
                fetches := s.fetches.filter (fun g => g.fid != fid) }
                  : ServiceState).cache (resolveId FILE_NOT_FOUND_ID) =
                none := hcF
            rw [getDocument_miss hcF1]
            have h0 : countFnf s = 0 := hq.2 hcF
            constructor
            · unfold countFnf at h0 ⊢
              dsimp only
              rw [List.filter_cons]
              simp only [show (resolveId FILE_NOT_FOUND_ID ==
                  FILE_NOT_FOUND_ID) = true by decide, if_true,
                List.length_cons]
              omega
            · intro hnone
              dsimp only at hnone
              rw [if_pos (show FILE_NOT_FOUND_ID =
                  resolveId FILE_NOT_FOUND_ID by decide)] at hnone
              cases hnone
          · have hcF1 : ({ s with
                fetches := s.fetches.filter (fun g => g.fid != fid) }
                  : ServiceState).cache (resolveId FILE_NOT_FOUND_ID) =
                some v := hcF
            rw [getDocument_hit hcF1]
            exact hq

theorem qInv_step {cfg : Config} {s : ServiceState} {e : Event}
    (hq : QInv s) (hb : benign e = true) : QInv (step cfg s e) := by
  cases e with
  | request url => exact qInv_getDocument hq
  | response fid tr => exact qInv_completeFetch hq hb

theorem qInv_run {cfg : Config} {s : ServiceState} {es : List Event}
    (hq : QInv s) (hb : ∀ e ∈ es, benign e = true) : QInv (run cfg s es) := by
  induction es generalizing s with
  | nil => exact hq
  | cons e es ih =>
      exact ih (qInv_step hq (hb e (List.mem_cons_self _ _)))
        (fun x hx => hb x (List.mem_cons_of_mem _ hx))

/-! ### C6 — the not-found branch -/

/-- C6: completing a fetch for an id other than the reserved not-found id
with a 404 links that id's future to the not-found future (the result
delivered for it is whatever `getDocument(FILE_NOT_FOUND_ID)` resolves to),
does not remove the id's cache entry, and over any trace of successes and
404s at most one transport request for the not-found content is ever
issued; moreover a cache entry disappears only when a fetch for that id
completes with a non-404 failure — never on success or not-found. -/
theorem not_found_branch :
    (∀ (cfg : Config) (es : List Event) (f : Fetch) (msg : String),
      (∀ e ∈ es, benign e = true) →
      findFetch (run cfg init es) f.fid = some f →
      f.id ≠ FILE_NOT_FOUND_ID →
      (completeFetch cfg (run cfg init es) f.fid (.err 404 msg)).futures
          f.fid = some (.linked (fnfTarget (run cfg init es))) ∧
      resolveFuture
          (completeFetch cfg (run cfg init es) f.fid (.err 404 msg)) 3 f.fid =
        resolveFuture
          (completeFetch cfg (run cfg init es) f.fid (.err 404 msg)) 2
          (fnfTarget (run cfg init es)) ∧
      (completeFetch cfg (run cfg init es) f.fid (.err 404 msg)).cache f.id =
        (run cfg init es).cache f.id ∧
      countFnf (completeFetch cfg (run cfg init es) f.fid (.err 404 msg)) ≤
        1) ∧
    (∀ (cfg : Config) (s : ServiceState) (e : Event) (i : String) (v : Nat),
      s.cache i = some v → (step cfg s e).cache i = none →
      ∃ fid st m g, e = .response fid (.err st m) ∧ (st == 404) = false ∧
        findFetch s fid = some g ∧ g.id = i) := by
  constructor
  · intro cfg es f msg hbt hFind hZ
    have h1 : (completeFetch cfg (run cfg init es) f.fid
        (.err 404 msg)).futures f.fid =
        some (.linked (fnfTarget (run cfg init es))) := by
      rw [completeFetch_eq hFind]
      simp only [handleOutcome_404, getFileNotFoundDoc]
      rw [if_pos hZ]
      rcases hcF : (run cfg init es).cache FILE_NOT_FOUND_ID with _ | v
      · have hcF1 : ({ run cfg init es with
            fetches := (run cfg init es).fetches.filter
              (fun g => g.fid != f.fid) } : ServiceState).cache
            (resolveId FILE_NOT_FOUND_ID) = none := hcF
        rw [getDocument_miss hcF1]
        simp only [if_true, ite_true, if_pos trivial]
        unfold fnfTarget
        rw [hcF]
      · have hcF1 : ({ run cfg init es with
            fetches := (run cfg init es).fetches.filter
              (fun g => g.fid != f.fid) } : ServiceState).cache
            (resolveId FILE_NOT_FOUND_ID) = some v := hcF
        rw [getDocument_hit hcF1]
        simp only [if_true, ite_true, if_pos trivial]
        unfold fnfTarget
        rw [hcF]
    refine ⟨h1, resolveFuture_linked h1, ?_, ?_⟩
    · rw [completeFetch_eq hFind]
      simp only [handleOutcome_404, getFileNotFoundDoc]
      rw [if_pos hZ]
      rcases hcF : (run cfg init es).cache FILE_NOT_FOUND_ID with _ | v
      · have hcF1 : ({ run cfg init es with
            fetches := (run cfg init es).fetches.filter
              (fun g => g.fid != f.fid) } : ServiceState).cache
            (resolveId FILE_NOT_FOUND_ID) = none := hcF
        rw [getDocument_miss hcF1]
        dsimp only
        rw [if_neg (show ¬(f.id = resolveId FILE_NOT_FOUND_ID) from
          fun e => hZ e)]
      · have hcF1 : ({ run cfg init es with
            fetches := (run cfg init es).fetches.filter
              (fun g => g.fid != f.fid) } : ServiceState).cache
            (resolveId FILE_NOT_FOUND_ID) = some v := hcF
        rw [getDocument_hit hcF1]
    · exact (@qInv_completeFetch cfg (run cfg init es) f.fid
        (.err 404 msg) (qInv_run qInv_init hbt) (by rfl)).1
  · intro cfg s e i v h1 h2
    cases e with
    | request url =>
        exfalso
        simp only [step] at h2
        rcases hc : s.cache (resolveId url) with _ | w
        · rw [getDocument_miss hc] at h2
          dsimp only at h2
          by_cases hi : i = resolveId url
          · rw [if_pos hi] at h2; cases h2
          · rw [if_neg hi] at h2
            rw [h1] at h2
            cases h2
        · rw [getDocument_hit hc] at h2
          dsimp only at h2
          rw [h1] at h2
          cases h2
    | response fid tr =>
        simp only [step] at h2
        rcases hf : findFetch s fid with _ | g
        · exfalso
          rw [completeFetch_noFetch hf] at h2
          rw [h1] at h2
          cases h2
        · cases tr with
          | ok body =>
              exfalso
              rw [completeFetch_eq hf] at h2
              simp only [handleOutcome_ok] at h2
              rw [h1] at h2
              cases h2
          | err st msg =>
              by_cases hst : st = 404
              · exfalso
                subst hst
                rw [completeFetch_eq hf] at h2
                simp only [handleOutcome_404, getFileNotFoundDoc] at h2
                by_cases hid : g.id = FILE_NOT_FOUND_ID
                · rw [if_neg (by simp [hid])] at h2
                  dsimp only at h2
                  rw [h1] at h2
                  cases h2
                · rw [if_pos hid] at h2
                  rcases hcF : s.cache FILE_NOT_FOUND_ID with _ | w
                  · have hcF1 : ({ s with
                        fetches := s.fetches.filter
                          (fun x => x.fid != fid) } : ServiceState).cache
                        (resolveId FILE_NOT_FOUND_ID) = none := hcF
                    rw [getDocument_miss hcF1] at h2
                    dsimp only at h2
                    by_cases hi : i = resolveId FILE_NOT_FOUND_ID
                    · rw [if_pos hi] at h2; cases h2
                    · rw [if_neg hi] at h2
                      rw [h1] at h2
                      cases h2
                  · have hcF1 : ({ s with
                        fetches := s.fetches.filter
                          (fun x => x.fid != fid) } : ServiceState).cache
                        (resolveId FILE_NOT_FOUND_ID) = some w := hcF
                    rw [getDocument_hit hcF1] at h2
                    dsimp only at h2
                    rw [h1] at h2
                    cases h2
              · refine ⟨fid, st, msg, g, rfl, by simpa using hst, hf, ?_⟩
                rw [completeFetch_eq hf] at h2
                simp only [handleOutcome_err _ _ _ _ (by simpa using hst),
                  getErrorDoc] at h2
                by_cases hi : i = g.id
                · exact hi.symm
                · rw [if_neg hi] at h2
                  rw [h1] at h2
                  cases h2

theorem not_found_witness :
    ((∀ e ∈ ([.request "z"] : List Event), benign e = true) ∧
     findFetch (run cfgW init [.request "z"]) 0 =
       some ⟨0, "z", "/content/docs/z.md"⟩ ∧
     ("z" : String) ≠ FILE_NOT_FOUND_ID) ∧
    (completeFetch cfgW (run cfgW init [.request "z"]) 0
        (.err 404 "nf")).futures 0 =
      some (.linked (fnfTarget (run cfgW init [.request "z"]))) ∧
    countFnf (completeFetch cfgW (run cfgW init [.request "z"]) 0
        (.err 404 "nf")) ≤ 1 ∧
    ((getDocument cfgW init "y").1.cache "y" = some 0 ∧
     (∃ fid st m g,
        (Event.response 0 (.err 500 "x")) = .response fid (.err st m) ∧
        (st == 404) = false ∧
        findFetch (getDocument cfgW init "y").1 fid = some g ∧
        g.id = "y")) := by
  have h := not_found_branch.1 cfgW [.request "z"]
    ⟨0, "z", "/content/docs/z.md"⟩ "nf" (by decide) (by decide) (by decide)
  refine ⟨⟨by decide, by decide, by decide⟩, h.1, h.2.2.2, by decide, ?_⟩
  exact not_found_branch.2 cfgW (getDocument cfgW init "y").1
    (.response 0 (.err 500 "x")) "y" 0 (by decide) (by decide)

/-! ### Every fetch completion leads to a resolved document -/

/-- Completing an in-flight fetch with any transport outcome — followed by
at most one further completion, for the not-found fetch the 404 branch may
have issued — leaves the fetch's future resolved to some document. -/
theorem fetch_resolves {cfg : Config} {s : ServiceState} {f : Fetch}
    (h : WF s) (hf : findFetch s f.fid = some f) (tr tr2 : TransportResult) :
    ∃ t d, resolveFuture
      (completeFetch cfg (completeFetch cfg s f.fid tr) t tr2) 3 f.fid =
      some d := by
  have hmem : f ∈ s.fetches := List.mem_of_find?_eq_some hf
  have hflt : f.fid < s.nextFid := h.fetchFresh f hmem
  cases tr with
  | ok body =>
      have hdone : (completeFetch cfg s f.fid (.ok body)).futures f.fid =
          some (.done ⟨f.id, cfg.render body⟩) := by
        rw [completeFetch_eq hf]
        simp [handleOutcome_ok]
      have hnof : findFetch (completeFetch cfg s f.fid (.ok body)) f.fid =
          none := by
        rw [completeFetch_eq hf]
        simp only [handleOutcome_ok]
        exact find?_filter_ne s.fetches f.fid
      exact ⟨f.fid, _, by
        rw [completeFetch_noFetch hnof]; exact resolveFuture_done hdone⟩
  | err st msg =>
      by_cases hst : st = 404
      · subst hst
        by_cases hid : f.id = FILE_NOT_FOUND_ID
        · have hdone : (completeFetch cfg s f.fid (.err 404 msg)).futures
              f.fid =
              some (.done ⟨ FILE_NOT_FOUND_ID, .jstr "Document not found"⟩) := by
            rw [completeFetch_eq hf]
            simp [handleOutcome_404, getFileNotFoundDoc, hid]
          have hnof : findFetch (completeFetch cfg s f.fid (.err 404 msg))
              f.fid = none := by
            rw [completeFetch_eq hf]
            simp only [handleOutcome_404, getFileNotFoundDoc, hid, ne_eq,
              not_true_eq_false, if_false, ite_false]
            exact find?_filter_ne s.fetches f.fid
          exact ⟨f.fid, _, by
            rw [completeFetch_noFetch hnof]; exact resolveFuture_done hdone⟩
        · rcases hcF : s.cache FILE_NOT_FOUND_ID with _ | v
          · -- not-found future not cached: a fresh fetch for it is issued
            have hcF1 : ({ s with
                fetches := s.fetches.filter (fun g => g.fid != f.fid) }
                  : ServiceState).cache (resolveId FILE_NOT_FOUND_ID) =
                none := hcF
            have h1 : (completeFetch cfg s f.fid (.err 404 msg)).futures
                f.fid = some (.linked s.nextFid) := by
              rw [completeFetch_eq hf]
              simp only [handleOutcome_404, getFileNotFoundDoc]
              rw [if_pos hid, getDocument_miss hcF1]
              simp only [if_true, ite_true, if_pos trivial]
            have hfe : (completeFetch cfg s f.fid (.err 404 msg)).fetches =
                (⟨s.nextFid, resolveId FILE_NOT_FOUND_ID,
                  requestPathOf cfg (resolveId FILE_NOT_FOUND_ID)⟩ : Fetch)
                  :: s.fetches.filter (fun g => g.fid != f.fid) := by
              rw [completeFetch_eq hf]
              simp only [handleOutcome_404, getFileNotFoundDoc]
              rw [if_pos hid, getDocument_miss hcF1]
            have hfind2 : findFetch (completeFetch cfg s f.fid (.err 404 msg))
                s.nextFid = some ⟨s.nextFid, resolveId FILE_NOT_FOUND_ID,
                  requestPathOf cfg (resolveId FILE_NOT_FOUND_ID)⟩ := by
              unfold findFetch
              rw [hfe]
              rw [List.find?_cons_of_pos _ (by simp)]
            rcases @completeFnf_done cfg _ _ _ hfind2 rfl tr2 with
              ⟨d2, hd2, hother⟩
            refine ⟨s.nextFid, d2, ?_⟩
            have hlink2 : (completeFetch cfg
                (completeFetch cfg s f.fid (.err 404 msg)) s.nextFid
                tr2).futures f.fid = some (.linked s.nextFid) := by
              rw [hother f.fid (Nat.ne_of_lt hflt)]
              exact h1
            rw [resolveFuture_linked hlink2]
            exact resolveFuture_done hd2
          · -- not-found future cached under v
            have hvne : v ≠ f.fid := by
              intro e
              exact hid (h.cacheInj f.id FILE_NOT_FOUND_ID f.fid
                (h.fetchCache f hmem) (e ▸ hcF))
            have hcF1 : ({ s with
                fetches := s.fetches.filter (fun g => g.fid != f.fid) }
                  : ServiceState).cache (resolveId FILE_NOT_FOUND_ID) =
                some v := hcF
            have h1 : (completeFetch cfg s f.fid (.err 404 msg)).futures
                f.fid = some (.linked v) := by
              rw [completeFetch_eq hf]
              simp only [handleOutcome_404, getFileNotFoundDoc]
              rw [if_pos hid, getDocument_hit hcF1]
              simp only [if_true, ite_true, if_pos trivial]
            have hfutv : (completeFetch cfg s f.fid (.err 404 msg)).futures
                v = s.futures v := by
              rw [completeFetch_eq hf]
              simp only [handleOutcome_404, getFileNotFoundDoc]
              rw [if_pos hid, getDocument_hit hcF1]
              dsimp only
              rw [if_neg hvne]
            have hfe : (completeFetch cfg s f.fid (.err 404 msg)).fetches =
                s.fetches.filter (fun g => g.fid != f.fid) := by
              rw [completeFetch_eq hf]
              simp only [handleOutcome_404, getFileNotFoundDoc]
              rw [if_pos hid, getDocument_hit hcF1]
            rcases hfv : s.futures v with _ | stv
            · exact absurd hfv (h.cacheFut _ _ hcF)
            · cases stv with
              | pending =>
                  rcases h.cachePF _ _ hcF hfv with ⟨g, hg, hgfid, hgid⟩
                  have hg2 : g ∈ (completeFetch cfg s f.fid
                      (.err 404 msg)).fetches := by
                    rw [hfe]
                    exact List.mem_filter.mpr ⟨hg, by simp [hgfid, hvne]⟩
                  have hnd2 : ((completeFetch cfg s f.fid
                      (.err 404 msg)).fetches.map Fetch.fid).Nodup := by
                    rw [hfe]
                    exact nodup_filterFid h f.fid
                  have hfind2 : findFetch (completeFetch cfg s f.fid
                      (.err 404 msg)) v = some g := by
                    have := findFetch_of_memState hnd2 hg2
                    rwa [hgfid] at this
                  rcases @completeFnf_done cfg _ _ _ hfind2 hgid tr2 with
                    ⟨d2, hd2, hother⟩
                  refine ⟨v, d2, ?_⟩
                  have hlink2 : (completeFetch cfg
                      (completeFetch cfg s f.fid (.err 404 msg)) v
                      tr2).futures f.fid = some (.linked v) := by
                    rw [hother f.fid (Ne.symm hvne)]
                    exact h1
                  rw [resolveFuture_linked hlink2]
                  exact resolveFuture_done hd2
              | linked u => exact absurd hfv (h.fnfNL v u hcF)
              | done d =>
                  have hnof : findFetch (completeFetch cfg s f.fid
                      (.err 404 msg)) f.fid = none := by
                    unfold findFetch
                    rw [hfe]
                    exact find?_filter_ne s.fetches f.fid
                  refine ⟨f.fid, d, ?_⟩
                  rw [completeFetch_noFetch hnof]
                  rw [resolveFuture_linked h1]
                  exact resolveFuture_done (n := 1) (by
                    rw [hfutv]; exact hfv)
      · have h404 : (st == 404) = false := by simpa using hst
        have hdone : (completeFetch cfg s f.fid (.err st msg)).futures
            f.fid = some (.done ⟨ FETCHING_ERROR_ID,
              .jstr FETCHING_ERROR_CONTENTS⟩) := by
          rw [completeFetch_eq hf]
          simp [handleOutcome_err _ _ _ _ h404, getErrorDoc]
        have hnof : findFetch (completeFetch cfg s f.fid (.err st msg))
            f.fid = none := by
          rw [completeFetch_eq hf]
          simp only [handleOutcome_err _ _ _ _ h404, getErrorDoc]
          exact find?_filter_ne s.fetches f.fid
        exact ⟨f.fid, _, by
          rw [completeFetch_noFetch hnof]; exact resolveFuture_done hdone⟩

/-! ### C2 — the future always completes with a document -/

/-- C2: for every reachable state, every path and every transport outcome
(success — including a malformed renderer output —, 404, or any other
failure), the future returned by `getDocument` resolves to some document
once the in-flight fetches complete: after the future's own fetch responds
(first completion) and, in the 404 case, the not-found fetch responds
(second completion, with any outcome), `resolveFuture` yields a document.
No outcome leaves the caller with a raised failure: the model's
`completeFetch` latches a document or a link for every branch of
`catchError`, and link targets are resolved here. -/
theorem getDocument_always_resolves :
    ∀ (cfg : Config) (es : List Event) (url : String)
      (tr tr2 : TransportResult),
      ∃ t d,
        resolveFuture
          (run cfg (getDocument cfg (run cfg init es) url).1
            [.response (getDocument cfg (run cfg init es) url).2 tr,
             .response t tr2])
          3 (getDocument cfg (run cfg init es) url).2 = some d := by
  intro cfg es url tr tr2
  have hw : WF (run cfg init es) := wf_run wf_init
  show ∃ t d,
    resolveFuture
      (completeFetch cfg
        (completeFetch cfg (getDocument cfg (run cfg init es) url).1
          (getDocument cfg (run cfg init es) url).2 tr) t tr2)
      3 (getDocument cfg (run cfg init es) url).2 = some d
  rcases hc : (run cfg init es).cache (resolveId url) with _ | v
  · have hwf := @wf_getDocument cfg (run cfg init es) url hw
    have hfind := @getDocument_miss_findFetch cfg (run cfg init es) url hc
    rw [getDocument_miss hc]
    rw [getDocument_miss hc] at hwf hfind
    dsimp only at hwf hfind ⊢
    exact fetch_resolves (f := ⟨(run cfg init es).nextFid, resolveId url,
      requestPathOf cfg (resolveId url)⟩) hwf hfind tr tr2
  · rw [getDocument_hit hc]
    dsimp only
    rcases hfut : (run cfg init es).futures v with _ | stv
    · exact absurd hfut (hw.cacheFut _ _ hc)
    · cases stv with
      | pending =>
          rcases hw.cachePF _ _ hc hfut with ⟨g, hg, hgfid, hgid⟩
          have hfind2 : findFetch (run cfg init es) g.fid = some g :=
            findFetch_of_memState hw.fidNodup hg
          have hres := @fetch_resolves cfg (run cfg init es) g hw hfind2
            tr tr2
          rw [hgfid] at hres
          exact hres
      | done d =>
          have hnof : findFetch (run cfg init es) v = none :=
            findFetch_none_of_not_pending hw
              (by rw [hfut]; intro hcon; cases hcon)
          refine ⟨v, d, ?_⟩
          rw [completeFetch_noFetch hnof, completeFetch_noFetch hnof]
          exact resolveFuture_done hfut
      | linked t0 =>
          have hnof : findFetch (run cfg init es) v = none :=
            findFetch_none_of_not_pending hw
              (by rw [hfut]; intro hcon; cases hcon)
          rcases hw.linkOk v t0 hfut with ⟨d0, hd0⟩ | ⟨hp, g, hg, hgfid, hgid⟩
          · refine ⟨v, d0, ?_⟩
            rw [completeFetch_noFetch hnof, completeFetch_noFetch hnof,
              resolveFuture_linked hfut]
            exact resolveFuture_done hd0
          · have hfind2 : findFetch (run cfg init es) t0 = some g := by
              have := findFetch_of_memState hw.fidNodup hg
              rwa [hgfid] at this
            rcases @completeFnf_done cfg _ _ _ hfind2 hgid tr2 with
              ⟨d2, hd2, hother⟩
            refine ⟨t0, d2, ?_⟩
            rw [completeFetch_noFetch hnof]
            have hvt : v ≠ t0 := by
              intro e
              rw [e, hp] at hfut
              cases hfut
            have hlink2 : (completeFetch cfg (run cfg init es) t0
                tr2).futures v = some (.linked t0) := by
              rw [hother v hvt]
              exact hfut
            rw [resolveFuture_linked hlink2]
            exact resolveFuture_done hd2

/-! ### C9 — the document stream emits only the latest path's document -/

theorem completeFetch_err_irrel {cfg : Config} {s : ServiceState}
    {fid st : Nat} {msg : String} (h : (st == 404) = false) :
    completeFetch cfg s fid (.err st msg) =
      completeFetch cfg s fid (.err 500 "error") := by
  rcases hf : findFetch s fid with _ | f
  · rw [completeFetch_noFetch hf, completeFetch_noFetch hf]
  · rw [completeFetch_eq hf, completeFetch_eq hf]
    simp only [handleOutcome_err _ _ _ _ h,
      handleOutcome_err _ _ _ _ (show ((500 : Nat) == 404) = false by decide)]

theorem emitIfReady_currentSub (a : AppState) :
    (emitIfReady a).currentSub = a.currentSub := by
  unfold emitIfReady
  rcases hc : a.currentSub with _ | c
  · exact hc
  · by_cases hb : a.subEmitted
    · simp [hb, hc]
    · rcases hr : resolveFuture a.svc 3 c with _ | d <;> simp [hb, hc, hr]

theorem emitIfReady_of_none {a : AppState} (h : a.currentSub = none) :
    emitIfReady a = a := by
  unfold emitIfReady
  rw [h]

theorem appRun_append (cfg : Config) (a : AppState) (l : List AppEvent)
    (e : AppEvent) :
    appRun cfg a (l ++ [e]) = appStep cfg (appRun cfg a l) e := by
  unfold appRun
  rw [List.foldl_append]
  rfl

theorem lastNav_append_nav (l : List AppEvent) (p : String) :
    lastNav (l ++ [.navigate p]) = some p := by
  unfold lastNav
  rw [List.foldl_append]
  rfl

theorem lastNav_append_resp (l : List AppEvent) (fid : Nat)
    (tr : TransportResult) :
    lastNav (l ++ [.response fid tr]) = lastNav l := by
  unfold lastNav
  rw [List.foldl_append]
  rfl

/-- C9: for every sequence of stream events, the document stream emits only
the document of the most recently emitted path.  (1) At every step, either
the emissions are unchanged, or exactly the resolved document of the
subscription current after the step is emitted — a superseded fetch result
is never emitted, because emission always reads the current subscription.
(2) Over every trace, the current subscription is precisely the future
`getDocument` returned for the most recently navigated path, at the state
in which that navigation happened — navigation switches the inner
subscription rather than merging — and before any navigation nothing is
emitted.  (3) The spec's scenario: paths "a" then "b" with "b" arriving
before "a"'s fetch completes produce exactly "b"'s document, whatever
outcome "a"'s fetch later has (success, 404 or failure). -/
theorem switch_to_latest :
    (∀ (cfg : Config) (a : AppState) (e : AppEvent),
      (appStep cfg a e).emissions = a.emissions ∨
      ∃ c d, (appStep cfg a e).currentSub = some c ∧
        resolveFuture (appStep cfg a e).svc 3 c = some d ∧
        (appStep cfg a e).emissions = d :: a.emissions) ∧
    (∀ (cfg : Config) (es : List AppEvent),
      (lastNav es = none →
        (appRun cfg appInit es).currentSub = none ∧
        (appRun cfg appInit es).emissions = []) ∧
      (∀ p, lastNav es = some p →
        ∃ es₁ es₂, es = es₁ ++ .navigate p :: es₂ ∧
          (∀ e ∈ es₂, isNav e = false) ∧
          (appRun cfg appInit es).currentSub =
            some ((getDocument cfg (appRun cfg appInit es₁).svc p).2))) ∧
    (∀ (cfg : Config) (tr1 : TransportResult) (U : String),
      (appRun cfg appInit
        [.navigate "a", .navigate "b", .response 0 tr1,
         .response 1 (.ok U)]).emissions =
      [⟨"b", cfg.render U⟩]) := by
  refine ⟨?_, ?_, ?_⟩
  · intro cfg a e
    cases e with
    | navigate path =>
        rcases hr : resolveFuture ((getDocument cfg a.svc path).1) 3
            ((getDocument cfg a.svc path).2) with _ | d
        · left
          simp [appStep, emitIfReady, hr]
        · right
          refine ⟨(getDocument cfg a.svc path).2, d, ?_, ?_, ?_⟩ <;>
            simp [appStep, emitIfReady, hr]
    | response fid tr =>
        rcases hc : a.currentSub with _ | c
        · left
          simp [appStep, emitIfReady, hc]
        · by_cases hb : a.subEmitted
          · left
            simp [appStep, emitIfReady, hc, hb]
          · rcases hr : resolveFuture (completeFetch cfg a.svc fid tr) 3 c
                with _ | d
            · left
              simp [appStep, emitIfReady, hc, hb, hr]
            · right
              refine ⟨c, d, ?_, ?_, ?_⟩ <;>
                simp [appStep, emitIfReady, hc, hb, hr]
  · intro cfg es
    induction es using List.reverseRecOn with
    | nil =>
        constructor
        · intro _
          exact ⟨rfl, rfl⟩
        · intro p hp
          simp [lastNav] at hp
    | append_singleton l e ih =>
        cases e with
        | navigate p =>
            constructor
            · intro h0
              rw [lastNav_append_nav] at h0
              cases h0
            · intro q hq
              rw [lastNav_append_nav] at hq
              cases hq
              refine ⟨l, [], by simp, by simp, ?_⟩
              rw [appRun_append]
              simp only [appStep]
              rw [emitIfReady_currentSub]
        | response fid tr =>
            constructor
            · intro h0
              rw [lastNav_append_resp] at h0
              rcases ih.1 h0 with ⟨hcs, hem⟩
              rw [appRun_append]
              have hcs2 : (appStep cfg (appRun cfg appInit l)
                  (.response fid tr)).currentSub = none := by
                simp only [appStep]
                rw [emitIfReady_currentSub]
                exact hcs
              refine ⟨hcs2, ?_⟩
              simp only [appStep]
              rw [emitIfReady_of_none (by exact hcs)]
              exact hem
            · intro p hp
              rw [lastNav_append_resp] at hp
              rcases ih.2 p hp with ⟨es₁, es₂, hsplit, hnonav, hcs⟩
              refine ⟨es₁, es₂ ++ [.response fid tr], ?_, ?_, ?_⟩
              · rw [hsplit]
                simp
              · intro e he
                rcases List.mem_append.mp he with he | he
                · exact hnonav e he
                · rcases List.mem_singleton.mp he with rfl
                  rfl
              · rw [appRun_append]
                simp only [appStep]
                rw [emitIfReady_currentSub]
                exact hcs
  · intro cfg tr1 U
    cases tr1 with
    | ok body => rfl
    | err st msg =>
        by_cases hst : st = 404
        · subst hst
          rfl
        · have h404 : (st == 404) = false := by simpa using hst
          simp only [appRun, List.foldl, appStep]
          rw [completeFetch_err_irrel h404]
          rfl

theorem switch_to_latest_witness :
    (lastNav ([] : List AppEvent) = none ∧
     (appRun cfgW appInit []).currentSub = none ∧
     (appRun cfgW appInit []).emissions = []) ∧
    (lastNav [AppEvent.navigate "a", .response 0 (.ok "T")] = some "a" ∧
     ∃ es₁ es₂,
       [AppEvent.navigate "a", .response 0 (.ok "T")] =
         es₁ ++ .navigate "a" :: es₂ ∧
       (∀ e ∈ es₂, isNav e = false) ∧
       (appRun cfgW appInit
           [AppEvent.navigate "a", .response 0 (.ok "T")]).currentSub =
         some ((getDocument cfgW (appRun cfgW appInit es₁).svc "a").2)) := by
  have h1 := (switch_to_latest.2.1 cfgW ([] : List AppEvent)).1 (by decide)
  have h2 := (switch_to_latest.2.1 cfgW
    [AppEvent.navigate "a", .response 0 (.ok "T")]).2 "a" (by decide)
  exact ⟨⟨by decide, h1.1, h1.2⟩, ⟨by decide, h2⟩⟩

end DocService
